import Mathlib

/-!
Verification of the deep-beamline-simulation U-Net module
(src/deep_beamline_simulation/u_net.py) against its specification.

The Python module is embedded shallowly:
  - images and feature maps are rational-valued nested lists
    (Mat for 2-D arrays, T3 for (channel, h, w), T4 for (batch, channel, h, w));
  - framework layers (Conv2d, ConvTranspose2d, MaxPool2d, ReLU, CenterCrop)
    are modelled by explicit index arithmetic over these lists, following the
    documented semantics of the corresponding torch / torchvision operations;
  - dropout is modelled in its deterministic evaluation mode (the identity);
  - operations that raise in Python return Except values;
  - floating-point numbers are modelled by exact rationals, except in
    normalize_image where an IEEE-style value type NFloat captures the
    divide-by-zero behaviour the spec describes.
-/

namespace DBS

/-- A 2-D array of pixel values (rows of columns). -/
abbrev Mat := List (List ℚ)

/-- A 3-D tensor: channels of 2-D arrays. -/
abbrev T3 := List Mat

/-- A 4-D tensor: a batch of 3-D tensors, shape (batch, channel, height, width). -/
abbrev T4 := List T3

/-- Width of a 2-D array, read from its first row (torch arrays are rectangular). -/
def matWidth (m : Mat) : Nat := (m.headD []).length

/-- Entry access with zero default, matching out-of-range reads of a zero-padded array. -/
def mEntry (m : Mat) (i j : Nat) : ℚ := (m.getD i []).getD j 0

/-- Shape predicate for 2-D arrays: h rows, every row of length w. -/
def matShape (m : Mat) (h w : Nat) : Prop := m.length = h ∧ ∀ r ∈ m, r.length = w

/-- Shape predicate for 3-D tensors. -/
def t3Shape (t : T3) (c h w : Nat) : Prop := t.length = c ∧ ∀ m ∈ t, matShape m h w

/-- Shape predicate for 4-D tensors. -/
def t4Shape (t : T4) (b c h w : Nat) : Prop := t.length = b ∧ ∀ s ∈ t, t3Shape s c h w

instance (m : Mat) (h w : Nat) : Decidable (matShape m h w) := by
  unfold matShape; infer_instance

instance (t : T3) (c h w : Nat) : Decidable (t3Shape t c h w) := by
  unfold t3Shape; infer_instance

instance (t : T4) (b c h w : Nat) : Decidable (t4Shape t b c h w) := by
  unfold t4Shape; infer_instance

/-- Height of a 4-D tensor, read as the Python expression x.shape[2]. -/
def t4Height (t : T4) : Nat := ((t.headD []).headD []).length

/-- Width of a 4-D tensor, read as the Python expression x.shape[3]. -/
def t4Width (t : T4) : Nat := matWidth ((t.headD []).headD [])

/-- All pixel values of a 4-D tensor, flattened. -/
def t4Entries (t : T4) : List ℚ := (t.map (fun s => (s.map (fun m => m.flatten)).flatten)).flatten

/-! ## ImageProcessing.smallest_image_size

The source initialises min_height and min_length to the sentinel 10e4 = 100000
and lowers them over the collection, reading shape[0] as height and shape[1]
as length.  Images are represented here by their shape tuples (lists of
dimension sizes), which is all the method inspects. -/

/-- Loop of smallest_image_size: one strict-compare-and-update step per image shape. -/
def smallest_go : List (List Nat) → Nat → Nat → Nat × Nat
  | [], mh, ml => (mh, ml)
  | s :: rest, mh, ml =>
    smallest_go rest
      (if s.getD 0 0 < mh then s.getD 0 0 else mh)
      (if s.getD 1 0 < ml then s.getD 1 0 else ml)

/-- ImageProcessing.smallest_image_size: minimum height and width over the
collection, starting from the sentinel value 100000 (the literal 10e4). -/
def smallest_image_size (image_list : List (List Nat)) : Nat × Nat :=
  smallest_go image_list 100000 100000

/-! ## ImageProcessing.resize

The source delegates to cv2.resize with dsize = (length - 1, height - 1);
cv2 takes dsize as (width, height), so the output array has height - 1 rows
and length - 1 columns.  The external cv2 call is modelled as an output array
of the requested dsize whose entries are sampled from the source array by
coordinate scaling; this stands in for cubic interpolation, whose exact pixel
values are irrelevant to every claim about resize (they concern shape only). -/

/-- Model of the external cv2.resize call: an array of dh rows and dw columns
sampled from the input by nearest coordinate scaling. -/
def cv2_resize (img : Mat) (dw dh : Nat) : Mat :=
  (List.range dh).map fun i =>
    (List.range dw).map fun j =>
      mEntry img (i * img.length / dh) (j * matWidth img / dw)

/-- ImageProcessing.resize: cv2.resize with dsize (length - 1, height - 1). -/
def resize (image : Mat) (height length : Nat) : Mat :=
  cv2_resize image (length - 1) (height - 1)

/-! ## ImageProcessing.normalize_image

np.mean and np.std are taken over every pixel of the image.  np.std is the
square root of the population variance; square roots of rationals are not
exactly representable, so the square-root function is a parameter, constrained
only where a claim needs it (sqrt 0 = 0).  Division follows IEEE semantics:
dividing a nonzero value by zero gives a signed infinity and dividing zero by
zero gives NaN, which the value type NFloat records explicitly. -/

/-- An IEEE-style value: a finite rational, an infinity, or NaN. -/
inductive NFloat
  | fin (q : ℚ)
  | inf
  | ninf
  | nan
deriving DecidableEq

/-- Division with IEEE zero-divisor semantics over exact rationals. -/
def ratDivF (a b : ℚ) : NFloat :=
  if b = 0 then (if a = 0 then NFloat.nan else if 0 < a then NFloat.inf else NFloat.ninf)
  else NFloat.fin (a / b)

/-- np.mean over every pixel of the image. -/
def npMean (img : Mat) : ℚ := img.flatten.sum / (img.flatten.length : ℚ)

/-- Population variance over every pixel, the square of np.std. -/
def npVar (img : Mat) : ℚ :=
  (img.flatten.map (fun v => (v - npMean img) ^ 2)).sum / (img.flatten.length : ℚ)

/-- ImageProcessing.normalize_image: (image - mean) / std elementwise, with the
standard deviation obtained as sq applied to the population variance. -/
def normalize_image (sq : ℚ → ℚ) (img : Mat) : List (List NFloat) :=
  img.map fun row => row.map fun v => ratDivF (v - npMean img) (sq (npVar img))

/-! ## ImageProcessing.loss_crop

The source takes image[0, 0, :, :].numpy(), slices each row to columns
[17:25), keeps rows [55:80) of the cropped rows, and rebuilds a float32
tensor with torch.from_numpy.  Calling numpy() on a tensor that requires
grad raises a RuntimeError; torch.from_numpy returns a fresh leaf tensor
with requires_grad False and no autograd edge. -/

/-- Element type tag of a tensor. -/
inductive DType
  | float32
  | float64
deriving DecidableEq

/-- A 4-D torch tensor: data plus autograd flag and element type. -/
structure TTensor4 where
  data : T4
  requiresGrad : Bool
  dtype : DType
deriving DecidableEq

/-- A 2-D torch tensor as produced by torch.from_numpy: data, autograd flag,
and a flag recording whether an autograd edge connects it to other tensors. -/
structure TTensor2 where
  data : Mat
  requiresGrad : Bool
  gradConnected : Bool
  dtype : DType
deriving DecidableEq

/-- The pure array part of loss_crop: columns [17:25) of each row, then rows [55:80). -/
def loss_crop_mat (img : Mat) : Mat :=
  ((img.map fun row => (row.drop 17).take 8).drop 55).take 25

/-- ImageProcessing.loss_crop.  The numpy() call raises when the input requires
grad; otherwise the result is a fresh float32 tensor built by torch.from_numpy,
with no autograd connection to the input.  The index [0, 0] selects the single
batch and channel (the claims quantify over inputs of shape (1, 1, H, W)). -/
def loss_crop (t : TTensor4) : Except String TTensor2 :=
  if t.requiresGrad then
    Except.error "RuntimeError: Cant call numpy on a Tensor that requires grad"
  else
    Except.ok
      { data := loss_crop_mat ((t.data.headD []).headD [])
        requiresGrad := false
        gradConnected := false
        dtype := DType.float32 }

/-! ## Framework layers

nn.Conv2d, nn.ConvTranspose2d, nn.MaxPool2d, nn.ReLU, nn.Dropout and
torchvision.transforms.CenterCrop, modelled by direct index arithmetic. -/

/-- Kernel entry access with zero default. -/
def kEntry (ker : Mat) (i j : Nat) : ℚ := (ker.getD i []).getD j 0

/-- Read a zero-padded array: index (a, b) of the array padded by p on every
side.  Reads past the right or bottom edge fall back to the getD default 0,
which coincides with the padding value. -/
def padAt (p : Nat) (m : Mat) (a b : Nat) : ℚ :=
  if p ≤ a ∧ p ≤ b then mEntry m (a - p) (b - p) else 0

/-- Cross-correlation of one k-by-k kernel against one padded input channel at
output position (i, j) with stride s and padding p. -/
def kerSum (k s p : Nat) (ker : Mat) (ch : Mat) (i j : Nat) : ℚ :=
  ((List.range k).map fun di =>
    ((List.range k).map fun dj =>
      kEntry ker di dj * padAt p ch (i * s + di) (j * s + dj)).sum).sum

/-- One output channel of a 2-D convolution over one batch element: bias plus
the sum over input channels of the kernelwise cross-correlations. -/
def convChannel (k s p : Nat) (wo : T3) (bo : ℚ) (img : T3) (oh ow : Nat) : Mat :=
  (List.range oh).map fun i =>
    (List.range ow).map fun j =>
      bo + ((wo.zip img).map fun q => kerSum k s p q.1 q.2 i j).sum

/-- nn.Conv2d with square kernel k, stride s and padding p; weight has shape
(out_channels, in_channels, k, k) and bias length out_channels.  The spatial
output size is (d + 2p - k) / s + 1 in each dimension. -/
def conv2d (k s p : Nat) (weight : T4) (bias : List ℚ) (x : T4) : T4 :=
  x.map fun img =>
    (List.range weight.length).map fun o =>
      convChannel k s p (weight.getD o []) (bias.getD o 0) img
        (((img.headD []).length + 2 * p - k) / s + 1)
        ((matWidth (img.headD []) + 2 * p - k) / s + 1)

/-- nn.ReLU applied elementwise to a 4-D tensor. -/
def reluT (x : T4) : T4 :=
  x.map fun img => img.map fun m => m.map fun row => row.map fun v => max v 0

/-- nn.Dropout in its deterministic evaluation mode: the identity. -/
def dropoutT (x : T4) : T4 := x

/-- nn.MaxPool2d(2) on one channel: the maximum over each non-overlapping
2-by-2 window; output dimensions are halved with floor. -/
def maxPoolMat (m : Mat) : Mat :=
  (List.range (m.length / 2)).map fun i =>
    (List.range (matWidth m / 2)).map fun j =>
      max (max (mEntry m (2 * i) (2 * j)) (mEntry m (2 * i) (2 * j + 1)))
          (max (mEntry m (2 * i + 1) (2 * j)) (mEntry m (2 * i + 1) (2 * j + 1)))

/-- nn.MaxPool2d(2) on a 4-D tensor. -/
def maxPool4 (x : T4) : T4 := x.map fun img => img.map maxPoolMat

/-- nn.ConvTranspose2d with kernel 2 and stride 2: each output position (i, j)
receives exactly one contribution per input channel, from input position
(i / 2, j / 2) through kernel entry (i % 2, j % 2).  The weight has shape
(in_channels, out_channels, 2, 2); spatial dimensions double. -/
def convT22 (weight : T4) (bias : List ℚ) (x : T4) : T4 :=
  x.map fun img =>
    (List.range ((weight.headD []).length)).map fun o =>
      (List.range (2 * (img.headD []).length)).map fun i =>
        (List.range (2 * matWidth (img.headD []))).map fun j =>
          bias.getD o 0 +
            ((weight.zip img).map fun q =>
              kEntry (q.1.getD o []) (i % 2) (j % 2) * mEntry q.2 (i / 2) (j / 2)).sum

/-- torch.cat along dim 1: concatenate the channel lists batchwise. -/
def cat1 (a b : T4) : T4 := (a.zip b).map fun q => q.1 ++ q.2

/-- Python round-half-to-even of d / 2 for a natural number d, as used by
torchvision to centre a crop. -/
def pyRound2 (d : Nat) : Nat :=
  if d % 2 = 0 then d / 2 else if (d / 2) % 2 = 0 then d / 2 else d / 2 + 1

/-- Plain rectangular crop: rows [top, top + ch) and columns [left, left + cw). -/
def cropAt (top left ch cw : Nat) (m : Mat) : Mat :=
  ((m.drop top).take ch).map fun r => (r.drop left).take cw

/-- Zero padding of a 2-D array by l, t, r, b pixels on the four sides. -/
def padLTRB (l t r b : Nat) (m : Mat) : Mat :=
  List.replicate t (List.replicate (l + matWidth m + r) (0 : ℚ)) ++
    m.map (fun row => List.replicate l (0 : ℚ) ++ row ++ List.replicate r (0 : ℚ)) ++
    List.replicate b (List.replicate (l + matWidth m + r) (0 : ℚ))

/-- Tail of the torchvision functional center_crop after padding: return the
padded image unchanged when it matches the requested size exactly, otherwise
crop it at the rounded centre offsets. -/
def centerCropPad (ch cw : Nat) (m2 : Mat) : Mat :=
  if ch = m2.length ∧ cw = matWidth m2 then m2
  else cropAt (pyRound2 (m2.length - ch)) (pyRound2 (matWidth m2 - cw)) ch cw m2

/-- torchvision.transforms.CenterCrop on one 2-D slice, following the
functional center_crop: when the requested size exceeds the image along an
edge the image is first zero padded to reach it and handed to centerCropPad;
otherwise the image is cropped directly at the rounded centre offsets. -/
def centerCrop2 (ch cw : Nat) (m : Mat) : Mat :=
  if cw > matWidth m ∨ ch > m.length then
    centerCropPad ch cw
      (padLTRB (if cw > matWidth m then (cw - matWidth m) / 2 else 0)
        (if ch > m.length then (ch - m.length) / 2 else 0)
        (if cw > matWidth m then (cw - matWidth m + 1) / 2 else 0)
        (if ch > m.length then (ch - m.length + 1) / 2 else 0) m)
  else cropAt (pyRound2 (m.length - ch)) (pyRound2 (matWidth m - cw)) ch cw m

/-- CenterCrop over the last two dimensions of a 4-D tensor. -/
def centerCrop4 (ch cw : Nat) (t : T4) : T4 :=
  t.map fun img => img.map (centerCrop2 ch cw)

/-- Decoder.crop: read H and W from the upsampled tensor x and CenterCrop the
encoder feature map to (H, W). -/
def decoderCrop (encoder_features x : T4) : T4 :=
  centerCrop4 (t4Height x) (t4Width x) encoder_features

/-- torch.mul of a 1-D parameter vector against a 4-D tensor: the vector is
broadcast along the last axis.  Following the torch broadcasting rules for a
(n,) against (b, c, h, w) pair: rows of length n multiply pointwise, a
length-one vector scales every row, and a length-one row is expanded by the
vector.  On any other length pair torch raises; there this model returns an
empty row, a case no claim exercises. -/
def mulVecLast (v : List ℚ) (t : T4) : T4 :=
  t.map fun img => img.map fun m => m.map fun row =>
    if v.length = row.length then v.zipWith (fun a b => a * b) row
    else if v.length = 1 then row.map (fun b => v.getD 0 0 * b)
    else if row.length = 1 then v.map (fun a => a * row.getD 0 0)
    else []

/-! ## Model parameters

Each nn.Module is represented by the record of parameter tensors it registers
in its constructor, in source order. -/

/-- Parameters of Block: the two Conv2d layers (3-by-3 kernels, stride 1,
padding 1), each a weight tensor and a bias vector. -/
structure BlockW where
  w1 : T4
  b1 : List ℚ
  w2 : T4
  b2 : List ℚ

/-- Parameters of one ConvTranspose2d layer: weight and bias. -/
structure UpconvW where
  w : T4
  b : List ℚ

/-- One decoder stage: the ConvTranspose2d at position i of upconv_modules
paired with the Block at position i of decoder_blocks.  The constructor builds
both lists with the same length len(num_channels) - 1, so the stage list is
their zip. -/
abbrev DecStage := UpconvW × BlockW

/-- Parameters of UNet: encoder blocks, decoder stages, and the 1-by-1 head
convolution. -/
structure UNetW where
  enc : List BlockW
  dec : List DecStage
  headW : T4
  headB : List ℚ

/-- Parameters of ParamUnet: the UNet parameters plus the two free parameter
vectors m1 and m2, in the registration order of the constructor. -/
structure ParamUnetW where
  enc : List BlockW
  m1 : List ℚ
  dec : List DecStage
  m2 : List ℚ
  headW : T4
  headB : List ℚ

/-! ## Forward passes -/

/-- Block.forward: first convolution, dropout, ReLU, second convolution. -/
def blockForward (w : BlockW) (x : T4) : T4 :=
  conv2d 3 1 1 w.w2 w.b2 (reluT (dropoutT (conv2d 3 1 1 w.w1 w.b1 x)))

/-- Encoder.forward: apply each block, record its output before pooling, and
feed the pooled output to the next block; return the recorded outputs. -/
def encoderForward : List BlockW → T4 → List T4
  | [], _ => []
  | b :: bs, x => blockForward b x :: encoderForward bs (maxPool4 (blockForward b x))

/-- The running value of the encoder_features variable inside Decoder.forward.
It starts as the list of skip features but the source rebinds it to the single
cropped tensor at the end of each iteration, so from the second iteration on
it is a tensor, no longer a list. -/
inductive FeatSt
  | fl (l : List T4)
  | ft (t : T4)

/-- Loop body of Decoder.forward at iteration i.  In the list state, index i of
the feature list is cropped to the upsampled tensor, concatenated on the
channel axis and passed through the stage block, and the state is rebound to
the cropped tensor.  In the tensor state the source indexes the previous
cropped 4-D tensor (yielding a 3-D tensor, or an IndexError) and torch.cat of
a 4-D with a 3-D tensor raises, so every execution that reaches the tensor
state with a stage left raises; an out-of-range list index likewise raises. -/
def decoderGo : List DecStage → Nat → T4 → FeatSt → Except String T4
  | [], _, x, _ => Except.ok x
  | st :: rest, i, x, fs =>
    let x1 := convT22 st.1.w st.1.b x
    match fs with
    | FeatSt.fl l =>
      match l[i]? with
      | none => Except.error "IndexError: encoder_features index out of range"
      | some f =>
        let fc := decoderCrop f x1
        decoderGo rest (i + 1) (blockForward st.2 (cat1 x1 fc)) (FeatSt.ft fc)
    | FeatSt.ft _ =>
      Except.error "RuntimeError: tensors must have same number of dimensions"

/-- Decoder.forward on the initial input and the skip-feature list. -/
def decoderForward (dec : List DecStage) (x : T4) (encoder_features : List T4) :
    Except String T4 :=
  decoderGo dec 0 x (FeatSt.fl encoder_features)

/-- The encoder-decoder path shared verbatim by UNet.forward and
ParamUnet.forward: run the encoder, reverse the feature list, seed the decoder
with its head and pass the remaining reversed features as skip connections.
Indexing an empty reversed list raises.  The print call in UNet.forward has no
effect on the returned value and is not modelled. -/
def unetBody (enc : List BlockW) (dec : List DecStage) (x : T4) : Except String T4 :=
  match (encoderForward enc x).reverse with
  | [] => Except.error "IndexError: encoder produced no features"
  | f0 :: rest => decoderForward dec f0 rest

/-- UNet.forward: the encoder-decoder path followed by the 1-by-1 head
convolution. -/
def unetForward (u : UNetW) (x : T4) : Except String T4 :=
  (unetBody u.enc u.dec x).map fun out => conv2d 1 1 0 u.headW u.headB out

/-- ParamUnet.forward: the encoder-decoder path, then torch.mul with m2, then
the head convolution.  The parameter m1 is registered by the constructor but
never read (the line that would use it is commented out in the source). -/
def paramUnetForward (p : ParamUnetW) (x : T4) : Except String T4 :=
  (unetBody p.enc p.dec x).map fun out =>
    conv2d 1 1 0 p.headW p.headB (mulVecLast p.m2 out)

/-! ## State-threading forward passes

The forward methods assign only to local variables; parameter tensors are read
through out-of-place framework operations and never written.  To make that a
provable statement, each forward is restated in state-passing form: every
layer application returns its output together with the parameter state it
leaves behind, and each composite forward threads its full parameter record
through its sub-calls and returns the final state. -/

/-- Applying a Conv2d layer: the output together with the layer state the
application leaves behind (framework convolutions are out-of-place reads). -/
def conv2dS (w : T4 × List ℚ) (k s p : Nat) (x : T4) : T4 × (T4 × List ℚ) :=
  (conv2d k s p w.1 w.2 x, w)

/-- Applying a ConvTranspose2d layer, in state-passing form. -/
def convT22S (w : UpconvW) (x : T4) : T4 × UpconvW :=
  (convT22 w.w w.b x, w)

/-- Applying torch.mul with a parameter vector, in state-passing form. -/
def mulVecLastS (v : List ℚ) (t : T4) : T4 × List ℚ :=
  (mulVecLast v t, v)

/-- Block.forward in state-passing form. -/
def blockForwardS (w : BlockW) (x : T4) : T4 × BlockW :=
  let s1 := conv2dS (w.w1, w.b1) 3 1 1 x
  let s2 := conv2dS (w.w2, w.b2) 3 1 1 (reluT (dropoutT s1.1))
  (s2.1, ⟨s1.2.1, s1.2.2, s2.2.1, s2.2.2⟩)

/-- Encoder.forward in state-passing form. -/
def encoderForwardS : List BlockW → T4 → List T4 × List BlockW
  | [], _ => ([], [])
  | b :: bs, x =>
    let s := blockForwardS b x
    let r := encoderForwardS bs (maxPool4 s.1)
    (s.1 :: r.1, s.2 :: r.2)

/-- Loop of Decoder.forward in state-passing form. -/
def decoderGoS : List DecStage → Nat → T4 → FeatSt → Except String T4 × List DecStage
  | [], _, x, _ => (Except.ok x, [])
  | st :: rest, i, x, fs =>
    let s1 := convT22S st.1 x
    match fs with
    | FeatSt.fl l =>
      match l[i]? with
      | none => (Except.error "IndexError: encoder_features index out of range",
                 (s1.2, st.2) :: rest)
      | some f =>
        let fc := decoderCrop f s1.1
        let s2 := blockForwardS st.2 (cat1 s1.1 fc)
        let r := decoderGoS rest (i + 1) s2.1 (FeatSt.ft fc)
        (r.1, (s1.2, s2.2) :: r.2)
    | FeatSt.ft _ =>
      (Except.error "RuntimeError: tensors must have same number of dimensions",
       (s1.2, st.2) :: rest)

/-- Decoder.forward in state-passing form. -/
def decoderForwardS (dec : List DecStage) (x : T4) (encoder_features : List T4) :
    Except String T4 × List DecStage :=
  decoderGoS dec 0 x (FeatSt.fl encoder_features)

/-- UNet.forward in state-passing form. -/
def unetForwardS (u : UNetW) (x : T4) : Except String T4 × UNetW :=
  let e := encoderForwardS u.enc x
  match e.1.reverse with
  | [] => (Except.error "IndexError: encoder produced no features",
           ⟨e.2, u.dec, u.headW, u.headB⟩)
  | f0 :: rest =>
    let d := decoderGoS u.dec 0 f0 (FeatSt.fl rest)
    match d.1 with
    | Except.error err => (Except.error err, ⟨e.2, d.2, u.headW, u.headB⟩)
    | Except.ok out =>
      let h := conv2dS (u.headW, u.headB) 1 1 0 out
      (Except.ok h.1, ⟨e.2, d.2, h.2.1, h.2.2⟩)

/-- ParamUnet.forward in state-passing form; m1 passes through unread. -/
def paramUnetForwardS (p : ParamUnetW) (x : T4) : Except String T4 × ParamUnetW :=
  let e := encoderForwardS p.enc x
  match e.1.reverse with
  | [] => (Except.error "IndexError: encoder produced no features",
           ⟨e.2, p.m1, p.dec, p.m2, p.headW, p.headB⟩)
  | f0 :: rest =>
    let d := decoderGoS p.dec 0 f0 (FeatSt.fl rest)
    match d.1 with
    | Except.error err => (Except.error err, ⟨e.2, p.m1, d.2, p.m2, p.headW, p.headB⟩)
    | Except.ok out =>
      let m := mulVecLastS p.m2 out
      let h := conv2dS (p.headW, p.headB) 1 1 0 m.1
      (Except.ok h.1, ⟨e.2, p.m1, d.2, m.2, h.2.1, h.2.2⟩)

/-! ## Helper lemmas -/

theorem smallest_go_eq (l : List (List Nat)) (mh ml : Nat) :
    smallest_go l mh ml =
      (l.foldl (fun a s => min a (s.getD 0 0)) mh,
       l.foldl (fun a s => min a (s.getD 1 0)) ml) := by
  induction l generalizing mh ml with
  | nil => rfl
  | cons s rest ih =>
    simp only [smallest_go, List.foldl_cons, ih]
    congr 2 <;> (rw [Nat.min_def]; split <;> split <;> omega)

theorem foldl_min_le_init (l : List Nat) (a : Nat) : l.foldl min a ≤ a := by
  induction l generalizing a with
  | nil => exact Nat.le_refl a
  | cons x rest ih => exact Nat.le_trans (ih (min a x)) (Nat.min_le_left a x)

theorem foldl_min_le_mem (l : List Nat) (a : Nat) : ∀ x ∈ l, l.foldl min a ≤ x := by
  induction l generalizing a with
  | nil => intro x hx; cases hx
  | cons y rest ih =>
    intro x hx
    rcases List.mem_cons.mp hx with h | h
    · subst h
      exact Nat.le_trans (foldl_min_le_init rest (min a x)) (Nat.min_le_right a x)
    · exact ih (min a y) x h

theorem foldl_min_choice (l : List Nat) (a : Nat) :
    l.foldl min a = a ∨ l.foldl min a ∈ l := by
  induction l generalizing a with
  | nil => exact Or.inl rfl
  | cons y rest ih =>
    rcases ih (min a y) with h | h
    · rcases min_choice a y with hm | hm
      · exact Or.inl (by rw [List.foldl_cons, h, hm])
      · exact Or.inr (by rw [List.foldl_cons, h, hm]; exact List.mem_cons_self y rest)
    · exact Or.inr (List.mem_cons_of_mem y h)

theorem sum_of_const (xs : List ℚ) (c : ℚ) (h : ∀ v ∈ xs, v = c) :
    xs.sum = xs.length * c := by
  induction xs with
  | nil => simp
  | cons x rest ih =>
    have hx : x = c := h x (List.mem_cons_self x rest)
    have hr : rest.sum = rest.length * c := ih fun v hv => h v (List.mem_cons_of_mem x hv)
    simp [hx, hr]
    ring

/-! ## Claims -/

/-- C7: on an empty collection, smallest_image_size returns the unchanged
sentinel defaults (100000, 100000) without raising. -/
theorem C7_smallest_image_size_empty : smallest_image_size [] = (100000, 100000) := rfl

/-- C6 counterexample: on the one-image collection of shape (100001, 100001),
smallest_image_size returns the sentinel pair (100000, 100000), which is not
the height or width of any image in the collection, hence not the minimum. -/
theorem C6_counterexample :
    smallest_image_size [[100001, 100001]] = (100000, 100000) ∧
      (smallest_image_size [[100001, 100001]]).1 ∉
        [[100001, 100001]].map (fun s : List Nat => s.getD 0 0) ∧
      (smallest_image_size [[100001, 100001]]).2 ∉
        [[100001, 100001]].map (fun s : List Nat => s.getD 1 0) := by
  decide

/-- C6 (amended): for a non-empty collection of shapes with at least two
components each, in which some image has height at most 100000 and some image
has width at most 100000, smallest_image_size returns the true minimum height
and the true minimum width: each returned component is one of the collected
dimensions and is at most every corresponding dimension in the collection. -/
theorem C6_smallest_image_size_min :
    ∀ l : List (List Nat), l ≠ [] → (∀ s ∈ l, 2 ≤ s.length) →
      (∃ s ∈ l, s.getD 0 0 ≤ 100000) → (∃ s ∈ l, s.getD 1 0 ≤ 100000) →
      ((smallest_image_size l).1 ∈ l.map (fun s => s.getD 0 0) ∧
        ∀ s ∈ l, (smallest_image_size l).1 ≤ s.getD 0 0) ∧
      ((smallest_image_size l).2 ∈ l.map (fun s => s.getD 1 0) ∧
        ∀ s ∈ l, (smallest_image_size l).2 ≤ s.getD 1 0) := by
  intro l _ _ hh hw
  have key : ∀ g : List Nat → Nat, (∃ s ∈ l, g s ≤ 100000) →
      (l.foldl (fun a s => min a (g s)) 100000 ∈ l.map g ∧
        ∀ s ∈ l, l.foldl (fun a s => min a (g s)) 100000 ≤ g s) := by
    intro g hex
    have hfm : l.foldl (fun a s => min a (g s)) 100000 = (l.map g).foldl min 100000 := by
      rw [List.foldl_map]
    constructor
    · rcases foldl_min_choice (l.map g) 100000 with hc | hc
      · obtain ⟨s, hs, hle⟩ := hex
        have hmem : g s ∈ l.map g := List.mem_map_of_mem g hs
        have hlow : (l.map g).foldl min 100000 ≤ g s := foldl_min_le_mem _ _ _ hmem
        have : g s = 100000 := Nat.le_antisymm hle (by rw [← hc]; exact hlow)
        rw [hfm, hc, ← this]; exact hmem
      · rw [hfm]; exact hc
    · intro s hs
      rw [hfm]
      exact foldl_min_le_mem _ _ _ (List.mem_map_of_mem g hs)
  have h1 := key (fun s => s.getD 0 0) hh
  have h2 := key (fun s => s.getD 1 0) hw
  rw [smallest_image_size, smallest_go_eq]
  exact ⟨h1, h2⟩

/-- C6 witness: the amended theorem applied to the concrete collection
of shapes (30, 40) and (20, 50). -/
theorem C6_witness :
    ([[30, 40], [20, 50]] : List (List Nat)) ≠ [] ∧
      ((smallest_image_size [[30, 40], [20, 50]]).1 ∈
          [[30, 40], [20, 50]].map (fun s : List Nat => s.getD 0 0) ∧
        ∀ s ∈ ([[30, 40], [20, 50]] : List (List Nat)),
          (smallest_image_size [[30, 40], [20, 50]]).1 ≤ s.getD 0 0) ∧
      ((smallest_image_size [[30, 40], [20, 50]]).2 ∈
          [[30, 40], [20, 50]].map (fun s : List Nat => s.getD 1 0) ∧
        ∀ s ∈ ([[30, 40], [20, 50]] : List (List Nat)),
          (smallest_image_size [[30, 40], [20, 50]]).2 ≤ s.getD 1 0) :=
  ⟨by decide,
    C6_smallest_image_size_min [[30, 40], [20, 50]] (by decide) (by decide)
      (by decide) (by decide)⟩

/-- C4: for every input image and all arguments H and L exceeding 1, resize
returns an image of H - 1 rows, each of length L - 1, regardless of the input
shape. -/
theorem C4_resize_shape :
    ∀ (image : Mat) (H L : Nat), 1 < H → 1 < L →
      matShape (resize image H L) (H - 1) (L - 1) := by
  intro image H L _ _
  constructor
  · simp [resize, cv2_resize]
  · intro r hr
    simp only [resize, cv2_resize, List.mem_map, List.mem_range] at hr
    obtain ⟨i, _, hrow⟩ := hr
    simp [← hrow]

/-- C4 witness: the theorem applied to a concrete one-pixel image with
H = 3 and L = 4. -/
theorem C4_witness :
    1 < 3 ∧ 1 < 4 ∧ matShape (resize [[(1 : ℚ)]] 3 4) 2 3 :=
  ⟨by decide, by decide, C4_resize_shape [[(1 : ℚ)]] 3 4 (by decide) (by decide)⟩

/-- C5: normalize_image returns (image - mean) / std elementwise, where the
mean and the variance under the square root are taken over every pixel; and on
a constant-valued image it does not raise but returns NaN everywhere, because
the zero numerator is divided by the zero standard deviation. -/
theorem C5_normalize_image :
    ∀ (sq : ℚ → ℚ) (img : Mat),
      (∀ i j, i < img.length → j < (img.getD i []).length →
        ((normalize_image sq img).getD i []).getD j NFloat.nan =
          ratDivF ((img.getD i []).getD j 0 - npMean img) (sq (npVar img))) ∧
      (sq 0 = 0 → img.flatten ≠ [] → ∀ c, (∀ v ∈ img.flatten, v = c) →
        ∀ row ∈ normalize_image sq img, ∀ e ∈ row, e = NFloat.nan) := by
  intro sq img
  constructor
  · intro i j hi hj
    have hi' : i < (normalize_image sq img).length := by
      simpa [normalize_image] using hi
    rw [List.getD_eq_getElem _ _ hi']
    have : (normalize_image sq img)[i] =
        img[i].map fun v => ratDivF (v - npMean img) (sq (npVar img)) := by
      simp [normalize_image]
    rw [this]
    have hj' : j < img[i].length := by
      rw [List.getD_eq_getElem _ _ hi] at hj; exact hj
    rw [List.getD_eq_getElem _ _ (by simpa using hj'), List.getElem_map,
      List.getD_eq_getElem _ _ hi, List.getD_eq_getElem _ _ hj']
  · intro hsq hne c hconst row hrow e he
    have hn : (img.flatten.length : ℚ) ≠ 0 := by
      have : img.flatten.length ≠ 0 := fun h => hne (List.length_eq_zero.mp h)
      exact_mod_cast this
    have hmean : npMean img = c := by
      rw [npMean, sum_of_const img.flatten c hconst, mul_comm,
        mul_div_assoc, div_self hn, mul_one]
    have hvar : npVar img = 0 := by
      rw [npVar]
      have : (img.flatten.map fun v => (v - npMean img) ^ 2).sum = 0 := by
        apply List.sum_eq_zero
        intro x hx
        obtain ⟨v, hv, hvx⟩ := List.mem_map.mp hx
        rw [← hvx, hmean, hconst v hv, sub_self, pow_two, mul_zero]
      rw [this, zero_div]
    obtain ⟨row0, hrow0, hrow0e⟩ := List.mem_map.mp hrow
    obtain ⟨v, hv, hve⟩ := List.mem_map.mp (hrow0e ▸ he)
    have hvc : v = c := hconst v (List.mem_flatten.mpr ⟨row0, hrow0, hv⟩)
    rw [← hve, hmean, hvar, hsq, hvc, sub_self, ratDivF, if_pos rfl, if_pos rfl]

/-- C5 witness: the theorem applied to the constant image [[3, 3]] with the
identity standing in for the square root (it sends 0 to 0, the only value the
constant case uses): every output entry is NaN. -/
theorem C5_witness :
    (fun q : ℚ => q) 0 = 0 ∧ ([[3, 3]] : Mat).flatten ≠ [] ∧
      (∀ v ∈ ([[3, 3]] : Mat).flatten, v = 3) ∧
      ∀ row ∈ normalize_image (fun q : ℚ => q) [[3, 3]], ∀ e ∈ row, e = NFloat.nan :=
  ⟨rfl, by decide, by decide,
    (C5_normalize_image (fun q => q) [[3, 3]]).2 rfl (by decide) 3 (by decide)⟩

/-- Shape and entries of the array part of loss_crop on an image of at least
80 rows and 25 columns: 25 rows of 8 entries, entry (i, j) being input entry
(55 + i, 17 + j). -/
theorem loss_crop_mat_spec (img : Mat) (H W : Nat) (hs : matShape img H W)
    (hH : 80 ≤ H) (hW : 25 ≤ W) :
    matShape (loss_crop_mat img) 25 8 ∧
      ∀ i j, i < 25 → j < 8 →
        mEntry (loss_crop_mat img) i j = mEntry img (55 + i) (17 + j) := by
  obtain ⟨hlen, hall⟩ := hs
  have hmlen : (img.map fun row => (row.drop 17).take 8).length = H := by
    simp [hlen]
  constructor
  · constructor
    · rw [loss_crop_mat, List.length_take, List.length_drop, hmlen]
      exact min_eq_left (by omega)
    · intro r hr
      have hr' : r ∈ img.map fun row => (row.drop 17).take 8 :=
        List.mem_of_mem_drop (List.mem_of_mem_take hr)
      obtain ⟨row, hrow, hre⟩ := List.mem_map.mp hr'
      rw [← hre, List.length_take, List.length_drop, hall row hrow]
      exact min_eq_left (by omega)
  · intro i j hi hj
    have h1 : i < (((img.map fun row => (row.drop 17).take 8).drop 55).take 25).length := by
      rw [List.length_take, List.length_drop, hmlen, min_eq_left (by omega : 25 ≤ H - 55)]
      exact hi
    have h2 : 55 + i < (img.map fun row => (row.drop 17).take 8).length := by
      rw [hmlen]; omega
    have h3 : 55 + i < img.length := by rw [hlen]; omega
    have hrowW : img[55 + i].length = W := hall _ (List.getElem_mem h3)
    have h4 : j < ((img[55 + i].drop 17).take 8).length := by
      rw [List.length_take, List.length_drop, hrowW, min_eq_left (by omega : 8 ≤ W - 17)]
      exact hj
    have h5 : 17 + j < img[55 + i].length := by rw [hrowW]; omega
    rw [mEntry, mEntry, loss_crop_mat, List.getD_eq_getElem _ _ h1,
      List.getElem_take, List.getElem_drop, List.getElem_map,
      List.getD_eq_getElem _ _ h4, List.getElem_take, List.getElem_drop,
      List.getD_eq_getElem _ _ h3, List.getD_eq_getElem _ _ h5]

/-- C3: on every tensor of shape (1, 1, H, W) with H at least 80 and W at
least 25 (detached, so that numpy conversion succeeds), loss_crop returns a
float32 tensor of shape (25, 8) whose entry (i, j) is exactly entry
(55 + i, 17 + j) of the single input channel, independent of pixel values. -/
theorem C3_loss_crop_shape :
    ∀ (t : TTensor4) (H W : Nat), t.requiresGrad = false →
      t4Shape t.data 1 1 H W → 80 ≤ H → 25 ≤ W →
      ∃ r, loss_crop t = Except.ok r ∧ r.requiresGrad = false ∧
        r.dtype = DType.float32 ∧ matShape r.data 25 8 ∧
        ∀ i j, i < 25 → j < 8 →
          mEntry r.data i j = mEntry ((t.data.headD []).headD []) (55 + i) (17 + j) := by
  intro t H W hrg hs hH hW
  obtain ⟨hlen, hall⟩ := hs
  obtain ⟨s, hseq⟩ := List.length_eq_one.mp hlen
  obtain ⟨hslen, hsall⟩ := hall s (by rw [hseq]; exact List.mem_cons_self s [])
  obtain ⟨m, hmeq⟩ := List.length_eq_one.mp hslen
  have hm : matShape m H W := hsall m (by rw [hmeq]; exact List.mem_cons_self m [])
  have hhead : (t.data.headD []).headD [] = m := by rw [hseq, hmeq]; rfl
  obtain ⟨hshape, hentry⟩ := loss_crop_mat_spec m H W hm hH hW
  refine ⟨⟨loss_crop_mat m, false, false, DType.float32⟩, ?_, rfl, rfl, hshape, ?_⟩
  · rw [loss_crop, if_neg (by simp [hrg]), hhead]
  · rw [hhead]; exact hentry

/-- A constant matrix has the shape of its replication counts. -/
theorem replicate_matShape (h w : Nat) (q : ℚ) :
    matShape (List.replicate h (List.replicate w q)) h w :=
  ⟨List.length_replicate h _, fun r hr => by
    rw [List.eq_of_mem_replicate hr]; exact List.length_replicate w q⟩

/-- A single-batch single-channel wrapping of a matrix of shape (H, W) has
tensor shape (1, 1, H, W). -/
theorem singleton4_shape (m : Mat) (H W : Nat) (hm : matShape m H W) :
    t4Shape [[m]] 1 1 H W :=
  ⟨rfl, fun s hs => by
    rcases List.mem_singleton.mp hs with rfl
    exact ⟨rfl, fun m2 hm2 => by rcases List.mem_singleton.mp hm2 with rfl; exact hm⟩⟩

/-- C3 witness: the theorem applied to the concrete zero tensor of shape
(1, 1, 80, 25). -/
theorem C3_witness :
    (TTensor4.mk [[List.replicate 80 (List.replicate 25 (0 : ℚ))]] false
        DType.float32).requiresGrad = false ∧
      t4Shape [[List.replicate 80 (List.replicate 25 (0 : ℚ))]] 1 1 80 25 ∧
      ∃ r, loss_crop (TTensor4.mk [[List.replicate 80 (List.replicate 25 (0 : ℚ))]]
          false DType.float32) = Except.ok r ∧
        r.requiresGrad = false ∧ r.dtype = DType.float32 ∧ matShape r.data 25 8 ∧
        ∀ i j, i < 25 → j < 8 →
          mEntry r.data i j =
            mEntry ((([[List.replicate 80 (List.replicate 25 (0 : ℚ))]] : T4).headD
              []).headD []) (55 + i) (17 + j) :=
  ⟨rfl, singleton4_shape _ 80 25 (replicate_matShape 80 25 0),
    C3_loss_crop_shape _ 80 25 rfl
      (singleton4_shape _ 80 25 (replicate_matShape 80 25 0)) (by omega) (by omega)⟩

/-- The centring offset never exceeds the slack it is computed from. -/
theorem pyRound2_le (d : Nat) : pyRound2 d ≤ d := by
  rw [pyRound2]; split_ifs <;> omega

/-- A plain rectangular crop of a rectangular array that stays in bounds has
exactly the requested shape. -/
theorem cropAt_shape (top left ch cw ih iw : Nat) (m : Mat) (hs : matShape m ih iw)
    (htop : top + ch ≤ ih) (hleft : left + cw ≤ iw) :
    matShape (cropAt top left ch cw m) ch cw := by
  obtain ⟨hlen, hall⟩ := hs
  constructor
  · rw [cropAt, List.length_map, List.length_take, List.length_drop, hlen]
    exact min_eq_left (by omega)
  · intro r hr
    obtain ⟨row, hrow, hre⟩ := List.mem_map.mp hr
    have : row ∈ m := List.mem_of_mem_drop (List.mem_of_mem_take hrow)
    rw [← hre, List.length_take, List.length_drop, hall row this]
    exact min_eq_left (by omega)

/-- Every row of an array satisfying a shape predicate has the width read from
the first row. -/
theorem rect_of_matShape {m : Mat} {h w : Nat} (hs : matShape m h w) :
    ∀ r ∈ m, r.length = matWidth m := by
  obtain ⟨_, hall⟩ := hs
  intro r hr
  cases m with
  | nil => cases hr
  | cons a l =>
    rw [hall r hr, matWidth, List.headD_cons, hall a (List.mem_cons_self a l)]

/-- The width read from the first row of a non-empty array with a shape. -/
theorem matWidth_of_matShape {m : Mat} {h w : Nat} (hs : matShape m h w) (hh : 1 ≤ h) :
    matWidth m = w := by
  obtain ⟨hlen, hall⟩ := hs
  cases m with
  | nil => rw [List.length_nil] at hlen; omega
  | cons a l => exact hall a (List.mem_cons_self a l)

/-- Shape of the four-sided zero padding of a rectangular array. -/
theorem padLTRB_shape (l t r b : Nat) (m : Mat)
    (hrect : ∀ row ∈ m, row.length = matWidth m) :
    matShape (padLTRB l t r b m) (t + m.length + b) (l + matWidth m + r) := by
  constructor
  · simp [padLTRB]; omega
  · intro row hrow
    simp only [padLTRB, List.mem_append, List.mem_map] at hrow
    rcases hrow with (h1 | h2) | h3
    · rw [List.eq_of_mem_replicate h1, List.length_replicate]
    · obtain ⟨r0, hr0, hre⟩ := h2
      rw [← hre, List.length_append, List.length_append, List.length_replicate,
        List.length_replicate, hrect r0 hr0]
    · rw [List.eq_of_mem_replicate h3, List.length_replicate]

/-- After padding, the crop-or-return tail of center_crop produces exactly the
requested shape as soon as the padded image is at least that large. -/
theorem centerCropPad_shape (ch cw ih2 iw2 : Nat) (m2 : Mat) (hs : matShape m2 ih2 iw2)
    (hch : ch ≤ ih2) (hcw : cw ≤ iw2) :
    matShape (centerCropPad ch cw m2) ch cw := by
  by_cases hcond : ch = m2.length ∧ cw = matWidth m2
  · rw [centerCropPad, if_pos hcond]
    refine ⟨hcond.1.symm, fun row hrow => ?_⟩
    have hnil : m2 ≠ [] := fun h => by cases h ▸ hrow
    have h1 : 1 ≤ ih2 := by
      rcases m2 with _ | ⟨a, l⟩
      · exact absurd rfl hnil
      · rw [← hs.1]; exact Nat.succ_le_succ (Nat.zero_le _)
    rw [hs.2 row hrow, ← matWidth_of_matShape hs h1, ← hcond.2]
  · rw [centerCropPad, if_neg hcond]
    rcases m2 with _ | ⟨a, l⟩
    · have hchz : ch = 0 := by rw [← hs.1] at hch; simpa using hch
      exact ⟨by simp [cropAt, hchz], fun r hr => by simp [cropAt] at hr⟩
    · have h1 : 1 ≤ ih2 := by rw [← hs.1]; exact Nat.succ_le_succ (Nat.zero_le _)
      have hwid : matWidth (a :: l) = iw2 := matWidth_of_matShape hs h1
      refine cropAt_shape _ _ _ _ ih2 iw2 _ hs ?_ ?_
      · have := pyRound2_le ((a :: l).length - ch)
        rw [hs.1] at this ⊢
        omega
      · have := pyRound2_le (matWidth (a :: l) - cw)
        rw [hwid] at this ⊢
        omega

/-- CenterCrop always returns exactly the requested spatial shape, whatever
the relation between the input size and the requested size. -/
theorem centerCrop2_shape (ch cw : Nat) (m : Mat)
    (hrect : ∀ r ∈ m, r.length = matWidth m) :
    matShape (centerCrop2 ch cw m) ch cw := by
  by_cases hbig : cw > matWidth m ∨ ch > m.length
  · rw [centerCrop2, if_pos hbig]
    refine centerCropPad_shape _ _ _ _ _
      (padLTRB_shape _ _ _ _ m hrect) ?_ ?_
    · split_ifs <;> omega
    · split_ifs <;> omega
  · push_neg at hbig
    rw [centerCrop2, if_neg (by push_neg; exact hbig)]
    refine cropAt_shape _ _ _ _ m.length (matWidth m) m ⟨rfl, hrect⟩ ?_ ?_
    · have := pyRound2_le (m.length - ch); omega
    · have := pyRound2_le (matWidth m - cw); omega

/-- When the requested size fits inside the input, CenterCrop is the plain
centred crop: no padding occurs. -/
theorem centerCrop2_of_le (ch cw ih iw : Nat) (m : Mat) (hs : matShape m ih iw)
    (hih : 1 ≤ ih) (hch : ch ≤ ih) (hcw : cw ≤ iw) :
    centerCrop2 ch cw m = cropAt (pyRound2 (ih - ch)) (pyRound2 (iw - cw)) ch cw m := by
  have hw : matWidth m = iw := matWidth_of_matShape hs hih
  have hl : m.length = ih := hs.1
  rw [centerCrop2, if_neg (by rw [hw, hl]; omega), hw, hl]

/-- The height a forward pass reads from a shaped non-empty tensor. -/
theorem t4Height_of_shape (x : T4) (b c h w : Nat) (hs : t4Shape x b c h w)
    (hb : 1 ≤ b) (hc : 1 ≤ c) : t4Height x = h := by
  obtain ⟨hlen, hall⟩ := hs
  rcases x with _ | ⟨s, xs⟩
  · rw [List.length_nil] at hlen; omega
  · obtain ⟨hslen, hsall⟩ := hall s (List.mem_cons_self s xs)
    rcases s with _ | ⟨m, ms⟩
    · rw [List.length_nil] at hslen; omega
    · exact (hsall m (List.mem_cons_self m ms)).1

/-- The width a forward pass reads from a shaped non-empty tensor. -/
theorem t4Width_of_shape (x : T4) (b c h w : Nat) (hs : t4Shape x b c h w)
    (hb : 1 ≤ b) (hc : 1 ≤ c) (hh : 1 ≤ h) : t4Width x = w := by
  obtain ⟨hlen, hall⟩ := hs
  rcases x with _ | ⟨s, xs⟩
  · rw [List.length_nil] at hlen; omega
  · obtain ⟨hslen, hsall⟩ := hall s (List.mem_cons_self s xs)
    rcases s with _ | ⟨m, ms⟩
    · rw [List.length_nil] at hslen; omega
    · exact matWidth_of_matShape (hsall m (List.mem_cons_self m ms)) hh

/-- C2 counterexample: for the encoder feature map of spatial size (1, 1) with
single entry 5 and an upsampled tensor of spatial size (2, 2), Decoder.crop
returns a (2, 2) result that contains the entry 0, which occurs nowhere in the
feature map: the result is produced by zero padding, not by cropping alone. -/
theorem C2_counterexample :
    t4Shape ([[[[5]]]] : T4) 1 1 1 1 ∧ t4Shape ([[[[1, 2], [3, 4]]]] : T4) 1 1 2 2 ∧
      decoderCrop [[[[5]]]] [[[[1, 2], [3, 4]]]] = [[[[5, 0], [0, 0]]]] ∧
      (0 : ℚ) ∈ t4Entries (decoderCrop [[[[5]]]] [[[[1, 2], [3, 4]]]]) ∧
      (0 : ℚ) ∉ t4Entries ([[[[5]]]] : T4) := by
  decide

/-- C2 (amended): for every pair of 4-D tensors, Decoder.crop returns a tensor
whose height and width exactly equal the upsampled tensor's height and width;
when the feature map is at least as large as the upsampled tensor in both
spatial dimensions the result is obtained by center-cropping the feature map
alone, but when the feature map is smaller along an edge torchvision first
zero-pads it, so the result is not always a pure crop. -/
theorem C2_decoder_crop :
    ∀ (f x : T4) (b c fh fw b2 c2 h w : Nat),
      t4Shape f b c fh fw → t4Shape x b2 c2 h w →
      1 ≤ b2 → 1 ≤ c2 → 1 ≤ h →
      t4Shape (decoderCrop f x) b c h w ∧
        (h ≤ fh → w ≤ fw →
          decoderCrop f x = f.map fun img => img.map
            (cropAt (pyRound2 (fh - h)) (pyRound2 (fw - w)) h w)) := by
  intro f x b c fh fw b2 c2 h w hf hx hb2 hc2 hh
  have hH : t4Height x = h := t4Height_of_shape x b2 c2 h w hx hb2 hc2
  have hW : t4Width x = w := t4Width_of_shape x b2 c2 h w hx hb2 hc2 hh
  rw [decoderCrop, hH, hW]
  constructor
  · refine ⟨by simp [centerCrop4, hf.1], ?_⟩
    intro s hs
    obtain ⟨img, himg, rfl⟩ := List.mem_map.mp hs
    obtain ⟨hclen, hcall⟩ := hf.2 img himg
    refine ⟨by simp [hclen], ?_⟩
    intro mm hmm
    obtain ⟨m0, hm0, rfl⟩ := List.mem_map.mp hmm
    exact centerCrop2_shape h w m0 (rect_of_matShape (hcall m0 hm0))
  · intro hhf hwf
    rw [centerCrop4]
    refine List.map_congr_left fun img himg => ?_
    refine List.map_congr_left fun m0 hm0 => ?_
    have hm0s : matShape m0 fh fw := (hf.2 img himg).2 m0 hm0
    exact centerCrop2_of_le h w fh fw m0 hm0s (by omega) hhf hwf

/-- C2 witness: the amended theorem applied to a concrete (3, 3) feature map
and a concrete (2, 2) upsampled tensor. -/
theorem C2_witness :
    t4Shape ([[[[1, 2, 3], [4, 5, 6], [7, 8, 9]]]] : T4) 1 1 3 3 ∧
      t4Shape ([[[[0, 0], [0, 0]]]] : T4) 1 1 2 2 ∧
      t4Shape (decoderCrop [[[[1, 2, 3], [4, 5, 6], [7, 8, 9]]]]
        [[[[0, 0], [0, 0]]]]) 1 1 2 2 ∧
      (2 ≤ 3 → 2 ≤ 3 →
        decoderCrop [[[[1, 2, 3], [4, 5, 6], [7, 8, 9]]]] [[[[0, 0], [0, 0]]]] =
          ([[[[1, 2, 3], [4, 5, 6], [7, 8, 9]]]] : T4).map fun img => img.map
            (cropAt (pyRound2 (3 - 2)) (pyRound2 (3 - 2)) 2 2)) :=
  ⟨by decide, by decide,
    (C2_decoder_crop [[[[1, 2, 3], [4, 5, 6], [7, 8, 9]]]] [[[[0, 0], [0, 0]]]]
      1 1 3 3 1 1 2 2 (by decide) (by decide) (by omega) (by omega) (by omega)).1,
    (C2_decoder_crop [[[[1, 2, 3], [4, 5, 6], [7, 8, 9]]]] [[[[0, 0], [0, 0]]]]
      1 1 3 3 1 1 2 2 (by decide) (by decide) (by omega) (by omega) (by omega)).2⟩

/-- One convolution output channel is a grid of the requested dimensions. -/
theorem convChannel_shape (k s p : Nat) (wo : T3) (bo : ℚ) (img : T3) (oh ow : Nat) :
    matShape (convChannel k s p wo bo img oh ow) oh ow := by
  refine ⟨by simp [convChannel], ?_⟩
  intro r hr
  simp only [convChannel, List.mem_map, List.mem_range] at hr
  obtain ⟨i, _, hre⟩ := hr
  simp [← hre]

/-- Shape of nn.Conv2d: batch size is preserved, the channel count becomes the
number of kernels, and each spatial dimension d becomes (d + 2p - k) / s + 1. -/
theorem conv2d_shape (k s p : Nat) (weight : T4) (bias : List ℚ) (x : T4)
    (b c h w : Nat) (hx : t4Shape x b c h w) (hc : 1 ≤ c) (hh : 1 ≤ h) :
    t4Shape (conv2d k s p weight bias x) b weight.length
      ((h + 2 * p - k) / s + 1) ((w + 2 * p - k) / s + 1) := by
  obtain ⟨hlen, hall⟩ := hx
  refine ⟨by simp [conv2d, hlen], ?_⟩
  intro s' hs'
  simp only [conv2d, List.mem_map] at hs'
  obtain ⟨img, himg, hse⟩ := hs'
  obtain ⟨hclen, hcall⟩ := hall img himg
  have hhead : (img.headD []).length = h := by
    rcases img with _ | ⟨m, ms⟩
    · rw [List.length_nil] at hclen; omega
    · exact (hcall m (List.mem_cons_self m ms)).1
  have hwid : matWidth (img.headD []) = w := by
    rcases img with _ | ⟨m, ms⟩
    · rw [List.length_nil] at hclen; omega
    · exact matWidth_of_matShape (hcall m (List.mem_cons_self m ms)) hh
  refine ⟨by simp [← hse], ?_⟩
  intro mm hmm
  rw [← hse] at hmm
  simp only [List.mem_map, List.mem_range] at hmm
  obtain ⟨o, _, hoe⟩ := hmm
  rw [← hoe, hhead, hwid]
  exact convChannel_shape _ _ _ _ _ _ _ _

/-- ReLU preserves tensor shape. -/
theorem reluT_shape (x : T4) (b c h w : Nat) (hx : t4Shape x b c h w) :
    t4Shape (reluT x) b c h w := by
  obtain ⟨hlen, hall⟩ := hx
  refine ⟨by simp [reluT, hlen], ?_⟩
  intro s hs
  simp only [reluT, List.mem_map] at hs
  obtain ⟨img, himg, hse⟩ := hs
  obtain ⟨hclen, hcall⟩ := hall img himg
  refine ⟨by simp [← hse, hclen], ?_⟩
  intro mm hmm
  rw [← hse] at hmm
  simp only [List.mem_map] at hmm
  obtain ⟨m0, hm0, hme⟩ := hmm
  obtain ⟨hml, hmr⟩ := hcall m0 hm0
  refine ⟨by simp [← hme, hml], ?_⟩
  intro r hr
  rw [← hme] at hr
  simp only [List.mem_map] at hr
  obtain ⟨r0, hr0, hre⟩ := hr
  simp [← hre, hmr r0 hr0]

/-- C8: a Block whose convolutions carry output_channels kernels of shape
(input_channels, 3, 3) and (output_channels, 3, 3) maps any non-degenerate
tensor with input_channels channels to one with output_channels channels and
the same spatial size, and its forward pass is exactly first convolution,
dropout, ReLU, second convolution. -/
theorem C8_block_forward :
    ∀ (bw : BlockW) (x : T4) (b cin cout h w : Nat),
      t4Shape x b cin h w → 1 ≤ cin → 1 ≤ h → 1 ≤ w →
      t4Shape bw.w1 cout cin 3 3 → bw.b1.length = cout →
      t4Shape bw.w2 cout cout 3 3 → bw.b2.length = cout → 1 ≤ cout →
      t4Shape (blockForward bw x) b cout h w ∧
        blockForward bw x =
          conv2d 3 1 1 bw.w2 bw.b2 (reluT (dropoutT (conv2d 3 1 1 bw.w1 bw.b1 x))) := by
  intro bw x b cin cout h w hx hcin hh hw hw1 hb1 hw2 hb2 hcout
  have harith : (h + 2 * 1 - 3) / 1 + 1 = h := by omega
  have warith : (w + 2 * 1 - 3) / 1 + 1 = w := by omega
  have h1 : t4Shape (conv2d 3 1 1 bw.w1 bw.b1 x) b cout h w := by
    have := conv2d_shape 3 1 1 bw.w1 bw.b1 x b cin h w hx hcin hh
    rwa [hw1.1, harith, warith] at this
  have h2 : t4Shape (reluT (dropoutT (conv2d 3 1 1 bw.w1 bw.b1 x))) b cout h w :=
    reluT_shape _ _ _ _ _ h1
  have h3 : t4Shape (conv2d 3 1 1 bw.w2 bw.b2 (reluT (dropoutT
      (conv2d 3 1 1 bw.w1 bw.b1 x)))) b cout h w := by
    have := conv2d_shape 3 1 1 bw.w2 bw.b2 _ b cout h w h2 hcout hh
    rwa [hw2.1, harith, warith] at this
  exact ⟨h3, rfl⟩

/-- C8 witness: the theorem applied to a concrete one-channel Block with zero
3-by-3 kernels on a one-pixel input. -/
theorem C8_witness :
    t4Shape ([[[[2]]]] : T4) 1 1 1 1 ∧
      t4Shape ([[[[0, 0, 0], [0, 0, 0], [0, 0, 0]]]] : T4) 1 1 3 3 ∧
      t4Shape (blockForward
        ⟨[[[[0, 0, 0], [0, 0, 0], [0, 0, 0]]]], [0],
          [[[[0, 0, 0], [0, 0, 0], [0, 0, 0]]]], [0]⟩ [[[[2]]]]) 1 1 1 1 :=
  ⟨by decide, by decide,
    (C8_block_forward ⟨[[[[0, 0, 0], [0, 0, 0], [0, 0, 0]]]], [0],
        [[[[0, 0, 0], [0, 0, 0], [0, 0, 0]]]], [0]⟩ [[[[2]]]] 1 1 1 1 1
      (by decide) (by omega) (by omega) (by omega) (by decide) (by decide)
      (by decide) (by decide) (by omega)).1⟩

/-- C1: ParamUnet.forward is UNet's encoder-decoder path, then elementwise
multiplication by m2 broadcast along the last axis, then the head convolution;
the parameter m1 has no effect on the output.  unetBody is the definition the
file's UNet.forward embedding itself is built from. -/
theorem C1_param_unet_equiv :
    ∀ (enc : List BlockW) (dec : List DecStage) (hw : T4) (hb m1 m1' m2 : List ℚ)
      (x : T4),
      paramUnetForward ⟨enc, m1, dec, m2, hw, hb⟩ x =
        Except.map (conv2d 1 1 0 hw hb)
          (Except.map (mulVecLast m2) (unetBody enc dec x)) ∧
      paramUnetForward ⟨enc, m1, dec, m2, hw, hb⟩ x =
        paramUnetForward ⟨enc, m1', dec, m2, hw, hb⟩ x := by
  intro enc dec hw hb m1 m1' m2 x
  cases hres : unetBody enc dec x with
  | error e => exact ⟨by simp [paramUnetForward, hres, Except.map],
      by simp [paramUnetForward, hres]⟩
  | ok out => exact ⟨by simp [paramUnetForward, hres, Except.map],
      by simp [paramUnetForward, hres]⟩

/-- Applying a Block leaves its parameters unchanged. -/
theorem blockForwardS_snd (w : BlockW) (x : T4) : (blockForwardS w x).2 = w := rfl

/-- Applying a Block computes Block.forward. -/
theorem blockForwardS_fst (w : BlockW) (x : T4) :
    (blockForwardS w x).1 = blockForward w x := rfl

/-- Running the encoder leaves its parameters unchanged. -/
theorem encoderForwardS_snd (bs : List BlockW) (x : T4) :
    (encoderForwardS bs x).2 = bs := by
  induction bs generalizing x with
  | nil => rfl
  | cons b rest ih => simp [encoderForwardS, blockForwardS_snd, ih]

/-- Running the encoder computes Encoder.forward. -/
theorem encoderForwardS_fst (bs : List BlockW) (x : T4) :
    (encoderForwardS bs x).1 = encoderForward bs x := by
  induction bs generalizing x with
  | nil => rfl
  | cons b rest ih =>
    simp [encoderForwardS, encoderForward, blockForwardS_fst, ih]

/-- Running the decoder loop leaves the stage parameters unchanged. -/
theorem decoderGoS_snd (stages : List DecStage) (i : Nat) (x : T4) (fs : FeatSt) :
    (decoderGoS stages i x fs).2 = stages := by
  induction stages generalizing i x fs with
  | nil => rfl
  | cons st rest ih =>
    cases fs with
    | fl l =>
      cases hli : l[i]? with
      | none => simp [decoderGoS, hli, convT22S]
      | some f => simp [decoderGoS, hli, convT22S, blockForwardS_snd, ih]
    | ft t => simp [decoderGoS, convT22S]

/-- Running the decoder loop computes the loop of Decoder.forward. -/
theorem decoderGoS_fst (stages : List DecStage) (i : Nat) (x : T4) (fs : FeatSt) :
    (decoderGoS stages i x fs).1 = decoderGo stages i x fs := by
  induction stages generalizing i x fs with
  | nil => rfl
  | cons st rest ih =>
    cases fs with
    | fl l =>
      cases hli : l[i]? with
      | none => simp [decoderGoS, decoderGo, hli]
      | some f => simp [decoderGoS, decoderGo, hli, convT22S, blockForwardS_fst, ih]
    | ft t => simp [decoderGoS, decoderGo, convT22S]

/-- Running the decoder leaves its parameters unchanged. -/
theorem decoderForwardS_snd (dec : List DecStage) (x : T4) (efs : List T4) :
    (decoderForwardS dec x efs).2 = dec :=
  decoderGoS_snd dec 0 x (FeatSt.fl efs)

/-- Running UNet.forward leaves its parameters unchanged. -/
theorem unetForwardS_snd (u : UNetW) (x : T4) : (unetForwardS u x).2 = u := by
  rw [unetForwardS]
  cases hrev : (encoderForwardS u.enc x).1.reverse with
  | nil => simp [encoderForwardS_snd]
  | cons f0 rest =>
    cases hd : (decoderGoS u.dec 0 f0 (FeatSt.fl rest)).1 with
    | error e => simp [hd, encoderForwardS_snd, decoderGoS_snd]
    | ok out => simp [hd, conv2dS, encoderForwardS_snd, decoderGoS_snd]

/-- Running ParamUnet.forward leaves its parameters, m1 and m2 included,
unchanged. -/
theorem paramUnetForwardS_snd (p : ParamUnetW) (x : T4) :
    (paramUnetForwardS p x).2 = p := by
  rw [paramUnetForwardS]
  cases hrev : (encoderForwardS p.enc x).1.reverse with
  | nil => simp [encoderForwardS_snd]
  | cons f0 rest =>
    cases hd : (decoderGoS p.dec 0 f0 (FeatSt.fl rest)).1 with
    | error e => simp [hd, encoderForwardS_snd, decoderGoS_snd]
    | ok out => simp [hd, conv2dS, mulVecLastS, encoderForwardS_snd, decoderGoS_snd]

/-- Running UNet.forward in state-passing form computes the same output as the
direct embedding. -/
theorem unetForwardS_fst (u : UNetW) (x : T4) :
    (unetForwardS u x).1 = unetForward u x := by
  rw [unetForwardS, unetForward, unetBody, encoderForwardS_fst]
  cases hrev : (encoderForward u.enc x).reverse with
  | nil => simp [Except.map]
  | cons f0 rest =>
    dsimp only
    rw [decoderGoS_fst, decoderForward]
    cases hd : decoderGo u.dec 0 f0 (FeatSt.fl rest) with
    | error e => simp [Except.map]
    | ok out => simp [Except.map, conv2dS]

/-- Running ParamUnet.forward in state-passing form computes the same output
as the direct embedding. -/
theorem paramUnetForwardS_fst (p : ParamUnetW) (x : T4) :
    (paramUnetForwardS p x).1 =
      paramUnetForward ⟨p.enc, p.m1, p.dec, p.m2, p.headW, p.headB⟩ x := by
  rw [paramUnetForwardS, paramUnetForward, unetBody, encoderForwardS_fst]
  cases hrev : (encoderForward p.enc x).reverse with
  | nil => simp [Except.map]
  | cons f0 rest =>
    dsimp only
    rw [decoderGoS_fst, decoderForward]
    cases hd : decoderGo p.dec 0 f0 (FeatSt.fl rest) with
    | error e => simp [Except.map]
    | ok out => simp [Except.map, conv2dS, mulVecLastS]

/-- C9: the forward pass of every model (Block, Encoder, Decoder, UNet,
ParamUnet) leaves all parameter tensors, m1 and m2 included, unchanged: the
parameter state after the pass equals the state before it. -/
theorem C9_forward_preserves_params :
    (∀ (w : BlockW) (x : T4), (blockForwardS w x).2 = w) ∧
      (∀ (bs : List BlockW) (x : T4), (encoderForwardS bs x).2 = bs) ∧
      (∀ (dec : List DecStage) (x : T4) (efs : List T4),
        (decoderForwardS dec x efs).2 = dec) ∧
      (∀ (u : UNetW) (x : T4), (unetForwardS u x).2 = u) ∧
      (∀ (p : ParamUnetW) (x : T4), (paramUnetForwardS p x).2 = p) :=
  ⟨blockForwardS_snd, encoderForwardS_snd, decoderForwardS_snd,
    unetForwardS_snd, paramUnetForwardS_snd⟩

/-- C10: loss_crop converts through numpy, so it raises exactly on inputs that
require grad; on inputs that do not require grad it returns a freshly built
float32 tensor with requires_grad false and no autograd connection to the
input, so no gradient can flow through its result. -/
theorem C10_loss_crop_autograd :
    ∀ t : TTensor4,
      (t.requiresGrad = true → ∃ e, loss_crop t = Except.error e) ∧
      (t.requiresGrad = false →
        ∃ r, loss_crop t = Except.ok r ∧ r.requiresGrad = false ∧
          r.gradConnected = false ∧ r.dtype = DType.float32) := by
  intro t
  constructor
  · intro h
    exact ⟨_, by rw [loss_crop, if_pos h]⟩
  · intro h
    exact ⟨_, by rw [loss_crop, if_neg (by simp [h])], rfl, rfl, rfl⟩

/-- C10 witness: the theorem applied to one concrete tensor that requires grad
(the error case) and one that does not (the fresh-tensor case). -/
theorem C10_witness :
    (TTensor4.mk [[[[1]]]] true DType.float32).requiresGrad = true ∧
      (∃ e, loss_crop (TTensor4.mk [[[[1]]]] true DType.float32) = Except.error e) ∧
      (∃ r, loss_crop (TTensor4.mk [[[[1]]]] false DType.float32) = Except.ok r ∧
        r.requiresGrad = false ∧ r.gradConnected = false ∧ r.dtype = DType.float32) :=
  ⟨rfl, (C10_loss_crop_autograd _).1 rfl, (C10_loss_crop_autograd _).2 rfl⟩

end DBS
